import Mathlib

set_option maxRecDepth 10000

/-!
Verification of the client-side sync engine (oplog, HLC generator, LWW merge
helper, remote-apply engine and sync-cycle orchestrator).

The Rust sources under `src/` are shallowly embedded: `serde_json::Value`
becomes the inductive `Json` (numbers modelled as `Int`), the SQLite store
becomes the explicit record `Store`, each SQLite transaction becomes a pure
state-passing function that returns the pre-call store on error (rusqlite
rolls a dropped, uncommitted transaction back), and the external serde
serializer/deserializer appear as function parameters `toStr` / `fromStr`.
-/

namespace Oplog

/-- Model of `serde_json::Value`. Objects are association lists in insertion
order (serde's map insert replaces the value of an existing key in place);
numbers are modelled as integers, which covers every payload the
specification exercises. -/
inductive Json where
  | null : Json
  | bool : Bool → Json
  | num : Int → Json
  | str : String → Json
  | arr : List Json → Json
  | obj : List (String × Json) → Json

/-- First-match lookup in an association list (model of map lookup on the
`PRIMARY KEY` / object-key column). -/
def assocGet {α : Type} : List (String × α) → String → Option α
  | [], _ => none
  | (k, v) :: rest, key => if k = key then some v else assocGet rest key

/-- Replace the binding of `key` in place, or append it (model of
`BTreeMap::insert` and of SQLite `ON CONFLICT(k) DO UPDATE`). -/
def assocSet {α : Type} : List (String × α) → String → α → List (String × α)
  | [], key, v => [(key, v)]
  | (k, w) :: rest, key, v =>
    if k = key then (k, v) :: rest else (k, w) :: assocSet rest key v

/-- `serde_json::Value::get` with a string index: object field lookup,
`None` on every other root. -/
def Json.get : Json → String → Option Json
  | .obj fields, key => assocGet fields key
  | _, _ => none

/-- Whether the root is a JSON object (`Value::as_object_mut` succeeds). -/
def Json.isObj : Json → Bool
  | .obj _ => true
  | _ => false

/-- `out.as_object_mut()` followed by `obj.insert(k, v)`: inserts into an
object root, leaves every other root unchanged. -/
def Json.insertField (j : Json) (key : String) (v : Json) : Json :=
  match j with
  | .obj fields => .obj (assocSet fields key v)
  | other => other

/-- `merge.rs::lww_merge_row`: with no `changed_fields` return the remote
row; otherwise start from the local row and copy each listed field from the
remote row when the remote row has it. (`local` is a Lean keyword, so the
first parameter is spelled `localv`.) -/
def lww_merge_row (localv remote : Json) (changed_fields : Option (List String)) : Json :=
  match changed_fields with
  | none => remote
  | some fields =>
    fields.foldl
      (fun out k =>
        match remote.get k with
        | some v => out.insertField k v
        | none => out)
      localv

/-- Bound of `i128::MIN`. -/
def i128Min : Int := -(2 ^ 127)

/-- Bound of `i128::MAX`. -/
def i128Max : Int := 2 ^ 127 - 1

/-- Bound of `i64::MIN`. -/
def i64Min : Int := -(2 ^ 63)

/-- Bound of `i64::MAX`. -/
def i64Max : Int := 2 ^ 63 - 1

/-- Rust `str::parse` for a signed integer type with range `[lo, hi]`: an
optional single `+`/`-` sign followed by at least one ASCII digit, failing
on anything else and on overflow. -/
def parseRustInt (lo hi : Int) (s : List Char) : Option Int :=
  let signDigits : Int × List Char :=
    match s with
    | [] => (1, [])
    | c :: rest =>
      if c = '+' then (1, rest)
      else if c = '-' then (-1, rest)
      else (1, c :: rest)
  let sign := signDigits.1
  let digits := signDigits.2
  if digits = [] then none
  else if digits.all (fun c => c.isDigit) then
    let n : Nat := digits.foldl (fun acc c => acc * 10 + (c.toNat - 48)) 0
    let v : Int := sign * (n : Int)
    if lo ≤ v ∧ v ≤ hi then some v else none
  else none

/-- Split a character list at the first `-`: the prefix before it and, when
a `-` exists, the remainder after it (one step of `splitn(3, '-')`). -/
def breakDash : List Char → List Char × Option (List Char)
  | [] => ([], none)
  | c :: rest =>
    if c = '-' then ([], some rest)
    else
      let p := breakDash rest
      (c :: p.1, p.2)

/-- `merge.rs::parse_hlc`: split on `-` into at most three parts via
`splitn(3, '-')`; `ms` parses as `i128`, `ctr` as `i64`, each defaulting to
`0` on a missing or unparsable part; the remainder is the origin (further
`-` preserved), defaulting to the empty string. -/
def parse_hlc (s : String) : Int × Int × String :=
  let b1 := breakDash s.data
  let ms := (parseRustInt i128Min i128Max b1.1).getD 0
  match b1.2 with
  | none => (ms, 0, "")
  | some t =>
    let b2 := breakDash t
    let ctr := (parseRustInt i64Min i64Max b2.1).getD 0
    let origin :=
      match b2.2 with
      | none => ""
      | some o => String.mk o
    (ms, ctr, origin)

/-- Rust `str` ordering (byte-lexicographic, which for UTF-8 coincides with
code-point-lexicographic order), as a strict less-than on char lists. -/
def charListLt : List Char → List Char → Bool
  | [], [] => false
  | [], _ :: _ => true
  | _ :: _, [] => false
  | a :: as, b :: bs =>
    if a.val < b.val then true
    else if b.val < a.val then false
    else charListLt as bs

/-- Rust `String` strict order. -/
def rustStrLt (a b : String) : Bool := charListLt a.data b.data

/-- Derived `Ord` on the tuple `(i128, i64, String)`: strict greater-than,
comparing components left to right. -/
def hlcGt (a b : Int × Int × String) : Bool :=
  if a.1 > b.1 then true
  else if a.1 < b.1 then false
  else if a.2.1 > b.2.1 then true
  else if a.2.1 < b.2.1 then false
  else rustStrLt b.2.2 a.2.2

/-- `merge.rs::should_overwrite`: true iff the local HLC parses strictly
greater than the remote HLC. -/
def should_overwrite (local_hlc remote_hlc : String) : Bool :=
  hlcGt (parse_hlc local_hlc) (parse_hlc remote_hlc)

/-- The specification's ordering, stated in its own words: lexicographic
strict comparison of the triple `(ms, ctr, origin)`. -/
def HlcSpecGt (a b : Int × Int × String) : Prop :=
  a.1 > b.1 ∨
    (a.1 = b.1 ∧
      (a.2.1 > b.2.1 ∨ (a.2.1 = b.2.1 ∧ rustStrLt b.2.2 a.2.2 = true)))

/-- The specification's strict lexicographic less-than on parsed triples
(used to state that consecutive HLC tokens strictly increase). -/
def HlcSpecLt (a b : Int × Int × String) : Prop :=
  a.1 < b.1 ∨
    (a.1 = b.1 ∧
      (a.2.1 < b.2.1 ∨ (a.2.1 = b.2.1 ∧ rustStrLt a.2.2 b.2.2 = true)))

/-- `oplog.rs::OpType`. -/
inductive OpType where
  | Insert : OpType
  | Update : OpType
  | Delete : OpType
deriving DecidableEq

/-- `OpType::as_str`. -/
def OpType.as_str : OpType → String
  | .Insert => "INSERT"
  | .Update => "UPDATE"
  | .Delete => "DELETE"

/-- `oplog.rs::SyncError` (the payloads of the wrapped `rusqlite` /
`serde_json` errors are modelled as their display strings). -/
inductive SyncError where
  | Sqlite : String → SyncError
  | Serde : String → SyncError
  | State : String → SyncError
deriving DecidableEq

/-- `oplog.rs::Change`: a local change as returned to the host, with the
JSON columns rehydrated. -/
structure Change where
  change_id : Int
  table_name : String
  row_id : String
  op_type : OpType
  columns : Option Json
  new_row : Option Json
  old_row : Option Json
  hlc : String
  origin : String
  sync_status : String

/-- `oplog.rs::RemoteOp`. -/
structure RemoteOp where
  remote_id : String
  table_name : String
  row_id : String
  op_type : OpType
  columns : Option Json
  new_row : Option Json
  old_row : Option Json
  hlc : String
  origin : String

/-- One stored row of the `local_changes` table, cells as SQLite keeps them
(`columns`/`new_row`/`old_row` are nullable TEXT). -/
structure Row where
  change_id : Int
  table_name : String
  row_id : String
  op_type : String
  columns : Option String
  new_row : Option String
  old_row : Option String
  hlc : String
  origin : String
  sync_status : String
deriving DecidableEq

/-- The SQLite database bound to the engine: the three engine-owned tables
plus the host's domain tables, abstracted as a value of type `δ`.
`next_change_id` is the `AUTOINCREMENT` counter of `local_changes`. -/
structure Store (δ : Type) where
  local_changes : List Row
  next_change_id : Int
  applied_remote_ops : List (String × Int)
  sync_kv : List (String × String)
  domain : δ

/-- The store right after `SyncEngine::init_schema` on a fresh database:
empty tables and `schema_version` seeded to 1. -/
def initStore {δ : Type} (d : δ) : Store δ :=
  { local_changes := []
    next_change_id := 1
    applied_remote_ops := []
    sync_kv := [("schema_version", "1")]
    domain := d }

/-- Decimal digit character (`0`–`9`; other inputs never occur). -/
def digitChar : Nat → Char
  | 0 => '0'
  | 1 => '1'
  | 2 => '2'
  | 3 => '3'
  | 4 => '4'
  | 5 => '5'
  | 6 => '6'
  | 7 => '7'
  | 8 => '8'
  | _ + 9 => '9'

/-- Fuel-driven decimal rendering of a natural number (structural recursion
so that concrete values reduce definitionally). -/
def natToDigitsGo : Nat → Nat → List Char
  | 0, _ => []
  | fuel + 1, n =>
    if n < 10 then [digitChar n]
    else natToDigitsGo fuel (n / 10) ++ [digitChar (n % 10)]

/-- Decimal digits of a natural number, most significant first. -/
def natToDigits (n : Nat) : List Char := natToDigitsGo (n + 1) n

/-- Rust's `Display` for signed integers (`next_ms.to_string()` and the
`format!` building the HLC token). -/
def intToString (i : Int) : String :=
  if i < 0 then "-" ++ String.mk (natToDigits (-i).toNat)
  else String.mk (natToDigits i.toNat)

/-- Read `sync_kv[key]` the way `next_hlc` does: a missing key and an
unparsable value both become 0; the stored text parses as `i64`. -/
def kvReadI64 (kv : List (String × String)) (key : String) : Int :=
  match assocGet kv key with
  | none => 0
  | some s => (parseRustInt i64Min i64Max s.data).getD 0

/-- The HLC token `"{ms}-{ctr}-{origin}"`. -/
def hlcToken (ms ctr : Int) (origin : String) : String :=
  intToString ms ++ "-" ++ intToString ctr ++ "-" ++ origin

/-- `oplog.rs::next_hlc`: one transaction that reads `hlc_last_ms` /
`hlc_last_ctr` (defaults 0), computes `(now, 0)` when `now > last_ms` and
`(last_ms, last_ctr + 1)` otherwise, persists both and returns the token.
The wall clock `Utc::now().timestamp_millis()` is the parameter `now_ms`. -/
def next_hlc {δ : Type} (now_ms : Int) (origin : String) (s : Store δ) :
    String × Store δ :=
  let last_ms := kvReadI64 s.sync_kv "hlc_last_ms"
  let ctr := kvReadI64 s.sync_kv "hlc_last_ctr"
  let next := if now_ms > last_ms then (now_ms, 0) else (last_ms, ctr + 1)
  let kv1 := assocSet s.sync_kv "hlc_last_ms" (intToString next.1)
  let kv2 := assocSet kv1 "hlc_last_ctr" (intToString next.2)
  (hlcToken next.1 next.2 origin, { s with sync_kv := kv2 })

/-- `oplog.rs::log_local_change`: one transaction inserting a `pending`
row; the insert fails on the `UNIQUE(hlc, origin)` constraint, rolling the
transaction back. `toStr` models `serde_json::Value::to_string` for the
optional JSON cells. -/
def log_local_change {δ : Type} (toStr : Json → String)
    (table_name row_id : String) (op_type : OpType)
    (columns new_row old_row : Option Json) (hlc origin : String)
    (s : Store δ) : Except SyncError Int × Store δ :=
  if s.local_changes.any (fun r => r.hlc = hlc && r.origin = origin) then
    (.error (.Sqlite "UNIQUE constraint failed: local_changes.hlc, local_changes.origin"), s)
  else
    let id := s.next_change_id
    let row : Row :=
      { change_id := id
        table_name := table_name
        row_id := row_id
        op_type := op_type.as_str
        columns := columns.map toStr
        new_row := new_row.map toStr
        old_row := old_row.map toStr
        hlc := hlc
        origin := origin
        sync_status := "pending" }
    (.ok id, { s with local_changes := s.local_changes ++ [row], next_change_id := id + 1 })

/-- `oplog.rs::log_insert_fullrow`: obtain a fresh HLC (its own committed
transaction), then insert the `INSERT` row. -/
def log_insert_fullrow {δ : Type} (toStr : Json → String) (now_ms : Int)
    (table_name row_id : String) (new_row : Json) (origin : String)
    (s : Store δ) : Except SyncError Int × Store δ :=
  let h := next_hlc now_ms origin s
  log_local_change toStr table_name row_id .Insert none (some new_row) none h.1 origin h.2

/-- `oplog.rs::log_update`. -/
def log_update {δ : Type} (toStr : Json → String) (now_ms : Int)
    (table_name row_id : String) (columns new_row old_row : Option Json)
    (origin : String) (s : Store δ) : Except SyncError Int × Store δ :=
  let h := next_hlc now_ms origin s
  log_local_change toStr table_name row_id .Update columns new_row old_row h.1 origin h.2

/-- `oplog.rs::log_delete`. -/
def log_delete {δ : Type} (toStr : Json → String) (now_ms : Int)
    (table_name row_id : String) (origin : String)
    (s : Store δ) : Except SyncError Int × Store δ :=
  let h := next_hlc now_ms origin s
  log_local_change toStr table_name row_id .Delete none none none h.1 origin h.2

/-- Rehydrate one nullable TEXT cell the way `get_pending_ops` does:
`NULL` stays absent; stored text parses with `serde_json::from_str`
(modelled by `fromStr`) and malformed text becomes the explicit JSON
null (`unwrap_or(Value::Null)`). -/
def jsonCell (fromStr : String → Option Json) : Option String → Option Json
  | none => none
  | some raw => some ((fromStr raw).getD Json.null)

/-- The `op_type` decoding of `get_pending_ops`: the three known strings
map to their variants and anything else falls through to `Update`. -/
def opTypeOfString (s : String) : OpType :=
  if s = "INSERT" then .Insert
  else if s = "UPDATE" then .Update
  else if s = "DELETE" then .Delete
  else .Update

/-- The row-mapping closure of `get_pending_ops`: decode `op_type` and
rehydrate the three JSON cells. -/
def changeOfRow (fromStr : String → Option Json) (r : Row) : Change :=
  { change_id := r.change_id
    table_name := r.table_name
    row_id := r.row_id
    op_type := opTypeOfString r.op_type
    columns := jsonCell fromStr r.columns
    new_row := jsonCell fromStr r.new_row
    old_row := jsonCell fromStr r.old_row
    hlc := r.hlc
    origin := r.origin
    sync_status := r.sync_status }

/-- `ORDER BY change_id ASC` as a relation on stored rows. -/
def rowLe (a b : Row) : Prop := a.change_id ≤ b.change_id

instance : DecidableRel rowLe := fun a b => inferInstanceAs (Decidable (a.change_id ≤ b.change_id))

instance : IsTotal Row rowLe := ⟨fun a b => Int.le_total a.change_id b.change_id⟩

instance : IsTrans Row rowLe := ⟨fun _ _ _ h1 h2 => le_trans h1 h2⟩

/-- `oplog.rs::get_pending_ops`: rows with `sync_status='pending'`,
ordered by `change_id` ascending, up to `limit` rows (SQLite treats a
negative `LIMIT` as no limit), each mapped through the rehydrating
closure. -/
def get_pending_ops {δ : Type} (fromStr : String → Option Json) (limit : Int)
    (s : Store δ) : List Change :=
  let pending := s.local_changes.filter (fun r => r.sync_status == "pending")
  let sorted := List.insertionSort rowLe pending
  let limited := if limit < 0 then sorted else sorted.take limit.toNat
  limited.map (changeOfRow fromStr)

/-- The bulk `UPDATE` loop shared by `mark_ops_pushed` and
`mark_ops_acked`: every row whose `change_id` is listed gets the new
status, unconditionally; unknown ids match no row and are ignored. -/
def setStatus (status : String) (ids : List Int) (rows : List Row) : List Row :=
  rows.map (fun r => if r.change_id ∈ ids then { r with sync_status := status } else r)

/-- `oplog.rs::mark_ops_pushed`: one transaction setting each listed row's
`sync_status` to `'pushed'`. -/
def mark_ops_pushed {δ : Type} (ids : List Int) (s : Store δ) :
    Except SyncError Unit × Store δ :=
  (.ok (), { s with local_changes := setStatus "pushed" ids s.local_changes })

/-- `oplog.rs::mark_ops_acked`: one transaction setting each listed row's
`sync_status` to `'acked'`. -/
def mark_ops_acked {δ : Type} (ids : List Int) (s : Store δ) :
    Except SyncError Unit × Store δ :=
  (.ok (), { s with local_changes := setStatus "acked" ids s.local_changes })

/-- `SELECT 1 FROM applied_remote_ops WHERE remote_id=?1` as seen inside
the running transaction (uncommitted inserts of the same transaction are
visible). -/
def registryHas (reg : List (String × Int)) (rid : String) : Bool :=
  reg.any (fun p => p.1 = rid)

/-- The per-op loop of `apply_remote_ops`, threading the transaction
state: skip an op whose `remote_id` is in `applied_remote_ops`, otherwise
invoke the applier on the domain tables and insert the idempotency marker.
The ghost `trace` accumulates the `remote_id`s for which the applier was
invoked; an applier error aborts the whole loop. -/
def applyLoop {δ : Type} (applier : δ → RemoteOp → Except SyncError δ)
    (now_ms : Int) :
    List RemoteOp → Store δ → List String → Except SyncError (Store δ × List String)
  | [], s, trace => .ok (s, trace)
  | op :: rest, s, trace =>
    if registryHas s.applied_remote_ops op.remote_id then
      applyLoop applier now_ms rest s trace
    else
      match applier s.domain op with
      | .error e => .error e
      | .ok d =>
        let s' : Store δ :=
          { s with
            domain := d
            applied_remote_ops := s.applied_remote_ops ++ [(op.remote_id, now_ms)] }
        applyLoop applier now_ms rest s' (trace ++ [op.remote_id])

/-- `oplog.rs::apply_remote_ops`: the whole batch runs in one transaction;
on success the threaded state commits, on any error the transaction drops
uncommitted and the store is the pre-call store. The third component is
the ghost list of committed applier invocations (empty when the
transaction rolled back). The host applier mutates only the domain
tables, per the `ApplyDomainOp` contract. -/
def apply_remote_ops {δ : Type} (applier : δ → RemoteOp → Except SyncError δ)
    (now_ms : Int) (ops : List RemoteOp) (s : Store δ) :
    Except SyncError Unit × Store δ × List String :=
  match applyLoop applier now_ms ops s [] with
  | .ok (s', trace) => (.ok (), s', trace)
  | .error e => (.error e, s, [])

/-- A sequence of `apply_remote_ops` calls on one engine; the returned
list concatenates the committed applier invocations of the successful
calls (a failed call commits none). -/
def runBatches {δ : Type} (applier : δ → RemoteOp → Except SyncError δ)
    (now_ms : Int) : List (List RemoteOp) → Store δ → Store δ × List String
  | [], s => (s, [])
  | b :: bs, s =>
    let r := apply_remote_ops applier now_ms b s
    let rest := runBatches applier now_ms bs r.2.1
    (rest.1, r.2.2 ++ rest.2)

/-- `oplog.rs::get_remote_cursor`. -/
def get_remote_cursor {δ : Type} (s : Store δ) : Option String :=
  assocGet s.sync_kv "remote_cursor"

/-- `oplog.rs::set_remote_cursor` (upsert of `remote_cursor`). -/
def set_remote_cursor {δ : Type} (c : String) (s : Store δ) : Store δ :=
  { s with sync_kv := assocSet s.sync_kv "remote_cursor" c }

/-- A sequence of `next_hlc` calls on one engine: each element of `calls`
is the wall-clock reading and the origin of one call; returns the tokens
in call order and the final store. -/
def runHlc {δ : Type} : List (Int × String) → Store δ → List String × Store δ
  | [], s => ([], s)
  | c :: rest, s =>
    let h := next_hlc c.1 c.2 s
    let t := runHlc rest h.2
    (h.1 :: t.1, t.2)

/-- One engine operation touching the `local_changes` lifecycle. -/
inductive EngOp where
  | logChange (table_name row_id : String) (op_type : OpType)
      (columns new_row old_row : Option Json) (hlc origin : String) : EngOp
  | markPushed (ids : List Int) : EngOp
  | markAcked (ids : List Int) : EngOp

/-- Execute one `EngOp` against the store (the committed store of the
corresponding engine call). -/
def engStep {δ : Type} (toStr : Json → String) (op : EngOp) (s : Store δ) : Store δ :=
  match op with
  | .logChange t rid ot c n o hlc org => (log_local_change toStr t rid ot c n o hlc org s).2
  | .markPushed ids => (mark_ops_pushed ids s).2
  | .markAcked ids => (mark_ops_acked ids s).2

/-- Execute a sequence of engine operations. -/
def engRun {δ : Type} (toStr : Json → String) : List EngOp → Store δ → Store δ
  | [], s => s
  | op :: ops, s => engRun toStr ops (engStep toStr op s)

/-- Nothing in the sequence asks `mark_ops_pushed` to touch a row that is
already `'acked'` (its `UPDATE` is unconditional, so such a call would
move the row backward). -/
def pushedOk {δ : Type} (op : EngOp) (s : Store δ) : Prop :=
  match op with
  | .markPushed ids => ∀ r ∈ s.local_changes, r.change_id ∈ ids → r.sync_status ≠ "acked"
  | _ => True

/-- `pushedOk` holds at every step of the sequence. -/
def Guarded {δ : Type} (toStr : Json → String) : List EngOp → Store δ → Prop
  | [], _ => True
  | op :: ops, s => pushedOk op s ∧ Guarded toStr ops (engStep toStr op s)

/-- Rank of a `sync_status` along `pending → pushed → acked`. -/
def statusRank (s : String) : Nat :=
  if s = "acked" then 2 else if s = "pushed" then 1 else 0

/-- Step 1–2 of `sync.rs::sync_cycle`: fetch pending changes and, when
non-empty, push them and mark the acked ids. -/
def syncStep1 {δ : Type} (fromStr : String → Option Json)
    (push : List Change → Except SyncError (List Int))
    (limit : Int) (s : Store δ) : Except SyncError (Store δ) :=
  let locals := get_pending_ops fromStr limit s
  if locals.isEmpty then .ok s
  else
    match push locals with
    | .error e => .error e
    | .ok acked => .ok (mark_ops_acked acked s).2

/-- `sync.rs::sync_cycle`: push pending locals, pull remote ops at the
stored cursor, apply the non-empty batch, and persist the new cursor when
present; each `?` propagates the error with the store as committed so
far. -/
def sync_cycle {δ : Type} (fromStr : String → Option Json)
    (applier : δ → RemoteOp → Except SyncError δ)
    (push : List Change → Except SyncError (List Int))
    (pull : Option String → Except SyncError (List RemoteOp × Option String))
    (limit now_ms : Int) (s : Store δ) : Except SyncError Unit × Store δ :=
  match syncStep1 fromStr push limit s with
  | .error e => (.error e, s)
  | .ok s1 =>
    match pull (get_remote_cursor s1) with
    | .error e => (.error e, s1)
    | .ok pulled =>
      let afterApply : Except SyncError (Store δ) :=
        if pulled.1.isEmpty then .ok s1
        else
          match apply_remote_ops applier now_ms pulled.1 s1 with
          | (.error e, _, _) => .error e
          | (.ok _, s2, _) => .ok s2
      match afterApply with
      | .error e => (.error e, s1)
      | .ok s2 =>
        match pulled.2 with
        | some c => (.ok (), set_remote_cursor c s2)
        | none => (.ok (), s2)

/-! ### Helper lemmas -/

theorem assocGet_assocSet {α : Type} (l : List (String × α)) (k : String) (v : α)
    (k' : String) :
    assocGet (assocSet l k v) k' = if k' = k then some v else assocGet l k' := by
  induction l with
  | nil =>
    by_cases h : k' = k
    · subst h; simp [assocGet, assocSet]
    · have h2 : ¬k = k' := fun h' => h h'.symm
      simp [assocGet, assocSet, h, h2]
  | cons p rest ih =>
    by_cases h0 : p.1 = k
    · by_cases h : k' = k
      · subst h; simp [assocGet, assocSet, h0]
      · have h2 : ¬k = k' := fun h' => h h'.symm
        simp [assocGet, assocSet, h0, h, h2]
    · by_cases h1 : p.1 = k'
      · have : ¬k' = k := fun hk => h0 (h1.trans hk)
        simp [assocGet, assocSet, h0, h1, this]
      · simp [assocGet, assocSet, h0, h1, ih]

theorem isObj_insertField (j : Json) (k : String) (v : Json) :
    (j.insertField k v).isObj = j.isObj := by
  cases j <;> simp [Json.insertField, Json.isObj]

theorem insertField_of_not_obj (j : Json) (k : String) (v : Json) (h : j.isObj = false) :
    j.insertField k v = j := by
  cases j <;> simp_all [Json.insertField, Json.isObj]

theorem get_insertField (j : Json) (k : String) (v : Json) (hj : j.isObj = true)
    (k' : String) :
    (j.insertField k v).get k' = if k' = k then some v else j.get k' := by
  cases j <;> simp_all [Json.isObj, Json.insertField, Json.get, assocGet_assocSet]

/-! ### C7: `should_overwrite` refines lexicographic HLC comparison -/

/-- C7: for all strings, `should_overwrite local remote` is true iff the
parsed `(ms, ctr, origin)` triple of the local HLC is lexicographically
greater than that of the remote HLC, where `parse_hlc` splits on `-` into
at most three parts (origin keeps any further `-`) and defaults missing or
non-integer `ms`/`ctr` to 0 and a missing origin to the empty string; in
particular `should_overwrite "1000-0-A" "1001-0-A" = false` and
`should_overwrite "1001-0-B" "1001-0-A" = true`. -/
theorem should_overwrite_iff_parse_gt :
    (∀ l r : String, should_overwrite l r = true ↔ HlcSpecGt (parse_hlc l) (parse_hlc r))
    ∧ should_overwrite "1000-0-A" "1001-0-A" = false
    ∧ should_overwrite "1001-0-B" "1001-0-A" = true
    ∧ parse_hlc "1000-0-A" = (1000, 0, "A")
    ∧ parse_hlc "7-8-x-y" = (7, 8, "x-y")
    ∧ parse_hlc "zz-1-Q" = (0, 1, "Q")
    ∧ parse_hlc "" = (0, 0, "") := by
  refine ⟨fun l r => ?_, by decide, by decide, by decide, by decide, by decide, by decide⟩
  unfold should_overwrite hlcGt HlcSpecGt
  generalize parse_hlc l = a
  generalize parse_hlc r = b
  obtain ⟨ma, ca, oa⟩ := a
  obtain ⟨mb, cb, ob⟩ := b
  simp only
  by_cases h1 : ma > mb
  · simp [h1]
  · by_cases h2 : ma < mb
    · simp only [if_neg h1, if_pos h2, Bool.false_eq_true, false_iff]
      rintro (h | ⟨h, -⟩) <;> omega
    · have hms : ma = mb := by omega
      by_cases h3 : ca > cb
      · simp [h1, h2, h3, hms]
      · by_cases h4 : ca < cb
        · simp only [if_neg h1, if_neg h2, if_neg h3, if_pos h4, Bool.false_eq_true, false_iff]
          rintro (h | ⟨-, h | ⟨h, -⟩⟩) <;> omega
        · have hcs : ca = cb := by omega
          simp [h1, h2, h3, h4, hms, hcs]

/-! ### C8: `lww_merge_row` -/

theorem lww_fold_of_not_obj (remote : Json) (fs : List String) :
    ∀ acc : Json, acc.isObj = false →
      fs.foldl
        (fun out k =>
          match remote.get k with
          | some v => out.insertField k v
          | none => out)
        acc = acc := by
  induction fs with
  | nil => intro acc _; rfl
  | cons f fs ih =>
    intro acc hacc
    simp only [List.foldl_cons]
    cases hrf : remote.get f with
    | none => exact ih acc hacc
    | some v =>
      have hred :
          (match (some v : Option Json) with
            | some v => acc.insertField f v
            | none => acc) = acc.insertField f v := rfl
      rw [hred, insertField_of_not_obj acc f v hacc]
      exact ih acc hacc

theorem lww_fold_get (remote : Json) (fs : List String) :
    ∀ acc : Json, acc.isObj = true → ∀ k : String,
      ((fs.foldl
          (fun out k =>
            match remote.get k with
            | some v => out.insertField k v
            | none => out)
          acc).get k
        = if k ∈ fs ∧ (remote.get k).isSome then remote.get k else acc.get k)
      ∧ (fs.foldl
          (fun out k =>
            match remote.get k with
            | some v => out.insertField k v
            | none => out)
          acc).isObj = true := by
  induction fs with
  | nil => intro acc hacc k; simp [hacc]
  | cons f fs ih =>
    intro acc hacc k
    simp only [List.foldl_cons]
    have hacc' :
        (match remote.get f with
          | some v => acc.insertField f v
          | none => acc).isObj = true := by
      cases hrf : remote.get f <;> simp [isObj_insertField, hacc]
    have ihk := ih _ hacc' k
    refine ⟨?_, ihk.2⟩
    rw [ihk.1]
    by_cases hmem : k ∈ fs ∧ (remote.get k).isSome
    · simp [hmem, hmem.1, hmem.2, List.mem_cons]
    · by_cases hkf : k = f
      · subst hkf
        cases hrf : remote.get k with
        | none => simp [hmem, hrf]
        | some v =>
          simp only [hrf, get_insertField acc k v hacc, if_pos rfl]
          simp [hrf]
      · have hacc'k :
            (match remote.get f with
              | some v => acc.insertField f v
              | none => acc).get k = acc.get k := by
          cases hrf : remote.get f with
          | none => rfl
          | some v => simp [get_insertField acc f v hacc, hkf]
        rw [hacc'k]
        have hcon : ¬((k = f ∨ k ∈ fs) ∧ (remote.get k).isSome = true) := by
          rintro ⟨h | h, hs⟩
          · exact hkf h
          · exact hmem ⟨h, hs⟩
        simp [hmem, List.mem_cons, hcon]

/-- C8: `lww_merge_row` with no `changed_fields` returns the remote row;
with `changed_fields` it returns the local row with each listed field
overwritten by the remote's same-named field when the remote has it; a
non-object local root is returned unchanged; concretely it maps the
specification's two examples as stated. -/
theorem lww_merge_row_spec :
    (∀ l r : Json, lww_merge_row l r none = r)
    ∧ (∀ (l r : Json) (fs : List String), l.isObj = false →
        lww_merge_row l r (some fs) = l)
    ∧ (∀ (l r : Json) (fs : List String) (k : String), l.isObj = true →
        (lww_merge_row l r (some fs)).get k
          = if k ∈ fs ∧ (r.get k).isSome then r.get k else l.get k)
    ∧ lww_merge_row (Json.obj [("a", Json.num 1), ("b", Json.num 2)])
        (Json.obj [("a", Json.num 9), ("b", Json.num 9)]) (some ["a"])
        = Json.obj [("a", Json.num 9), ("b", Json.num 2)]
    ∧ lww_merge_row (Json.obj [("a", Json.num 1)]) (Json.obj [("a", Json.num 9)]) none
        = Json.obj [("a", Json.num 9)] := by
  refine ⟨fun l r => rfl, ?_, ?_, rfl, rfl⟩
  · intro l r fs hl
    exact lww_fold_of_not_obj r fs l hl
  · intro l r fs k hl
    exact (lww_fold_get r fs l hl k).1

/-! ### C9 / C10: `get_pending_ops` -/

theorem mem_get_pending {δ : Type} (fromStr : String → Option Json) (limit : Int)
    (s : Store δ) (ch : Change) (h : ch ∈ get_pending_ops fromStr limit s) :
    ∃ row ∈ s.local_changes, row.sync_status = "pending" ∧ ch = changeOfRow fromStr row := by
  unfold get_pending_ops at h
  obtain ⟨row, hrow, rfl⟩ := List.mem_map.mp h
  have hrow2 : row ∈ List.insertionSort rowLe
      (s.local_changes.filter (fun r => r.sync_status == "pending")) := by
    by_cases hl : limit < 0
    · simpa [hl] using hrow
    · exact List.take_subset _ _ (by simpa [hl] using hrow)
  have hrow3 := (List.perm_insertionSort rowLe _).mem_iff.mp hrow2
  have hrow4 := List.mem_filter.mp hrow3
  exact ⟨row, hrow4.1, by simpa using hrow4.2, rfl⟩

theorem get_pending_complete {δ : Type} (fromStr : String → Option Json) (limit : Int)
    (s : Store δ) (h0 : 0 ≤ limit)
    (hlen : (s.local_changes.filter (fun r => r.sync_status == "pending")).length ≤ limit.toNat)
    (row : Row) (hr : row ∈ s.local_changes) (hp : row.sync_status = "pending") :
    changeOfRow fromStr row ∈ get_pending_ops fromStr limit s := by
  unfold get_pending_ops
  have hperm := List.perm_insertionSort rowLe
      (s.local_changes.filter (fun r => r.sync_status == "pending"))
  have hsortlen : (List.insertionSort rowLe
      (s.local_changes.filter (fun r => r.sync_status == "pending"))).length ≤ limit.toNat := by
    rw [hperm.length_eq]; exact hlen
  have htake : (List.insertionSort rowLe
      (s.local_changes.filter (fun r => r.sync_status == "pending"))).take limit.toNat
      = List.insertionSort rowLe
          (s.local_changes.filter (fun r => r.sync_status == "pending")) :=
    List.take_of_length_le hsortlen
  have hmemf : row ∈ s.local_changes.filter (fun r => r.sync_status == "pending") :=
    List.mem_filter.mpr ⟨hr, by simpa using hp⟩
  have hmems : row ∈ List.insertionSort rowLe
      (s.local_changes.filter (fun r => r.sync_status == "pending")) :=
    hperm.mem_iff.mpr hmemf
  have hnotlt : ¬limit < 0 := not_lt.mpr h0
  simp only [hnotlt, if_false, htake]
  exact List.mem_map_of_mem (changeOfRow fromStr) hmems

/-- C9: `get_pending_ops limit` returns at most `limit` records, each coming
from a stored row with `sync_status = 'pending'` via the rehydrating
closure, sorted ascending by `change_id`; when `limit` covers all pending
rows, every pending row is returned; and a stored JSON cell that fails to
parse is rehydrated as the explicit JSON null instead of failing the
call. -/
theorem get_pending_ops_spec :
    ∀ (δ : Type) (fromStr : String → Option Json) (limit : Int) (s : Store δ),
      0 ≤ limit →
      (get_pending_ops fromStr limit s).length ≤ limit.toNat
      ∧ (∀ ch ∈ get_pending_ops fromStr limit s,
          ∃ row ∈ s.local_changes, row.sync_status = "pending" ∧ ch = changeOfRow fromStr row)
      ∧ ((get_pending_ops fromStr limit s).map (fun ch => ch.change_id)).Sorted (fun a b => a ≤ b)
      ∧ ((s.local_changes.filter (fun r => r.sync_status == "pending")).length ≤ limit.toNat →
          ∀ row ∈ s.local_changes, row.sync_status = "pending" →
            changeOfRow fromStr row ∈ get_pending_ops fromStr limit s)
      ∧ (∀ (row : Row) (raw : String), fromStr raw = none →
          (row.columns = some raw → (changeOfRow fromStr row).columns = some Json.null)
          ∧ (row.new_row = some raw → (changeOfRow fromStr row).new_row = some Json.null)
          ∧ (row.old_row = some raw → (changeOfRow fromStr row).old_row = some Json.null)) := by
  intro δ fromStr limit s h0
  have hnotlt : ¬limit < 0 := not_lt.mpr h0
  refine ⟨?_, fun ch hch => mem_get_pending fromStr limit s ch hch, ?_, ?_, ?_⟩
  · unfold get_pending_ops
    simp only [hnotlt, if_false, List.length_map, List.length_take]
    exact min_le_left _ _
  · unfold get_pending_ops
    simp only [hnotlt, if_false]
    have hsorted : List.Sorted rowLe (List.insertionSort rowLe
        (s.local_changes.filter (fun r => r.sync_status == "pending"))) :=
      List.sorted_insertionSort rowLe _
    have htaken : List.Sorted rowLe ((List.insertionSort rowLe
        (s.local_changes.filter (fun r => r.sync_status == "pending"))).take limit.toNat) :=
      hsorted.sublist (List.take_sublist _ _)
    rw [List.map_map]
    exact List.pairwise_map.mpr htaken
  · intro hlen row hr hp
    exact get_pending_complete fromStr limit s h0 hlen row hr hp
  · intro row raw hraw
    refine ⟨fun hc => ?_, fun hc => ?_, fun hc => ?_⟩ <;>
      simp [changeOfRow, jsonCell, hc, hraw]

/-- One pending row whose `new_row` cell will fail to parse. -/
def c9Row1 : Row :=
  { change_id := 2, table_name := "trips", row_id := "t2", op_type := "UPDATE"
    columns := none, new_row := some "bad json", old_row := none
    hlc := "2-0-A", origin := "A", sync_status := "pending" }

/-- A second pending row with a smaller `change_id`. -/
def c9Row2 : Row :=
  { change_id := 1, table_name := "trips", row_id := "t1", op_type := "INSERT"
    columns := none, new_row := none, old_row := none
    hlc := "1-0-A", origin := "A", sync_status := "pending" }

/-- An acked row that `get_pending_ops` must not return. -/
def c9Row3 : Row :=
  { change_id := 3, table_name := "trips", row_id := "t3", op_type := "DELETE"
    columns := none, new_row := none, old_row := none
    hlc := "3-0-A", origin := "A", sync_status := "acked" }

/-- A store holding the three rows above. -/
def c9Store : Store Unit :=
  { local_changes := [c9Row1, c9Row2, c9Row3]
    next_change_id := 4
    applied_remote_ops := []
    sync_kv := [("schema_version", "1")]
    domain := () }

/-- Witness for C9: the non-negative-limit hypothesis is satisfiable at a
concrete store. -/
theorem get_pending_ops_spec_witness :
    (0 : Int) ≤ 10
    ∧ (get_pending_ops (fun _ => none) 10 c9Store).length ≤ (10 : Int).toNat :=
  ⟨by decide, (get_pending_ops_spec Unit (fun _ => none) 10 c9Store (by decide)).1⟩

/-- C10: a stored `op_type` other than `"INSERT"`, `"UPDATE"`, `"DELETE"`
decodes to `OpType.Update` rather than an error, and such a pending row is
returned by `get_pending_ops` with `op_type = Update`. -/
theorem unknown_op_type_becomes_update :
    ∀ (fromStr : String → Option Json) (row : Row),
      row.op_type ≠ "INSERT" → row.op_type ≠ "UPDATE" → row.op_type ≠ "DELETE" →
      (changeOfRow fromStr row).op_type = OpType.Update
      ∧ ∀ (δ : Type) (s : Store δ) (limit : Int),
          0 ≤ limit →
          (s.local_changes.filter (fun r => r.sync_status == "pending")).length ≤ limit.toNat →
          row ∈ s.local_changes → row.sync_status = "pending" →
          ∃ ch ∈ get_pending_ops fromStr limit s,
            ch.change_id = row.change_id ∧ ch.op_type = OpType.Update := by
  intro fromStr row h1 h2 h3
  have hop : (changeOfRow fromStr row).op_type = OpType.Update := by
    simp [changeOfRow, opTypeOfString, h1, h2, h3]
  refine ⟨hop, ?_⟩
  intro δ s limit hl hlen hr hp
  exact ⟨changeOfRow fromStr row,
    get_pending_complete fromStr limit s hl hlen row hr hp, rfl, hop⟩

/-- A stored row with an unrecognized `op_type`. -/
def c10Row : Row :=
  { change_id := 1, table_name := "t", row_id := "1", op_type := "UPSERT"
    columns := none, new_row := none, old_row := none
    hlc := "1-0-A", origin := "A", sync_status := "pending" }

/-- Witness for C10: the unknown-`op_type` hypotheses are satisfiable. -/
theorem unknown_op_type_becomes_update_witness :
    ("UPSERT" ≠ "INSERT" ∧ "UPSERT" ≠ "UPDATE" ∧ "UPSERT" ≠ "DELETE")
    ∧ (changeOfRow (fun _ => none) c10Row).op_type = OpType.Update :=
  ⟨⟨by decide, by decide, by decide⟩,
    (unknown_op_type_becomes_update (fun _ => none) c10Row
      (by decide) (by decide) (by decide)).1⟩

/-! ### C2: `apply_remote_ops` rolls back on error -/

/-- C2: whenever `apply_remote_ops` returns an error — an applier failure
on any op of the batch — the committed store equals the pre-call store: no
idempotency marker is recorded and every domain write of the failed call
is rolled back, so state from earlier successful batches is exactly what
remains. -/
theorem apply_remote_ops_error_rolls_back :
    ∀ (δ : Type) (applier : δ → RemoteOp → Except SyncError δ) (now_ms : Int)
      (ops : List RemoteOp) (s : Store δ) (e : SyncError),
      (apply_remote_ops applier now_ms ops s).1 = Except.error e →
      (apply_remote_ops applier now_ms ops s).2.1 = s := by
  intro δ applier now ops s e h
  unfold apply_remote_ops at h ⊢
  cases hl : applyLoop applier now ops s [] with
  | ok p =>
    rw [hl] at h
    obtain ⟨s', tr⟩ := p
    exact absurd h (by simp)
  | error e' => rfl

/-- A remote op used by concrete rollback scenarios. -/
def failOp : RemoteOp :=
  { remote_id := "r1", table_name := "t", row_id := "1", op_type := .Insert
    columns := none, new_row := none, old_row := none, hlc := "1-0-A", origin := "A" }

/-- An applier that always fails. -/
def failApplier : Unit → RemoteOp → Except SyncError Unit :=
  fun _ _ => .error (.State "applier failed")

/-- Witness for C2: a failing applier triggers the error hypothesis and
the store is returned unchanged. -/
theorem apply_remote_ops_error_rolls_back_witness :
    (apply_remote_ops failApplier 0 [failOp] (initStore ())).1
        = Except.error (SyncError.State "applier failed")
    ∧ (apply_remote_ops failApplier 0 [failOp] (initStore ())).2.1 = initStore () :=
  ⟨rfl, apply_remote_ops_error_rolls_back Unit failApplier 0 [failOp] (initStore ())
      (SyncError.State "applier failed") rfl⟩

/-! ### C1: exactly-once application of remote ops -/

theorem registryHas_append (reg : List (String × Int)) (a : String) (m : Int)
    (rid : String) :
    registryHas (reg ++ [(a, m)]) rid = (registryHas reg rid || a = rid) := by
  simp [registryHas, List.any_append]

theorem applyLoop_registry_mono {δ : Type} (applier : δ → RemoteOp → Except SyncError δ)
    (now_ms : Int) :
    ∀ (ops : List RemoteOp) (s : Store δ) (tr : List String) (s' : Store δ)
      (tr' : List String),
      applyLoop applier now_ms ops s tr = .ok (s', tr') →
      ∀ rid, registryHas s.applied_remote_ops rid = true →
        registryHas s'.applied_remote_ops rid = true := by
  intro ops
  induction ops with
  | nil =>
    intro s tr s' tr' h rid hr
    unfold applyLoop at h
    simp only [Except.ok.injEq, Prod.mk.injEq] at h
    rw [← h.1]; exact hr
  | cons op rest ih =>
    intro s tr s' tr' h rid hr
    unfold applyLoop at h
    by_cases hseen : registryHas s.applied_remote_ops op.remote_id
    · rw [if_pos hseen] at h
      exact ih s tr s' tr' h rid hr
    · rw [if_neg hseen] at h
      cases happ : applier s.domain op with
      | error e => rw [happ] at h; exact absurd h (by simp)
      | ok d =>
        rw [happ] at h
        refine ih _ _ s' tr' h rid ?_
        simp only [registryHas_append, hr, Bool.true_or]

theorem applyLoop_trace {δ : Type} (applier : δ → RemoteOp → Except SyncError δ)
    (now_ms : Int) :
    ∀ (ops : List RemoteOp) (s : Store δ) (tr : List String) (s' : Store δ)
      (tr' : List String),
      applyLoop applier now_ms ops s tr = .ok (s', tr') →
      ∃ delta, tr' = tr ++ delta ∧ delta.Nodup ∧
        ∀ rid ∈ delta, registryHas s.applied_remote_ops rid = false
          ∧ registryHas s'.applied_remote_ops rid = true := by
  intro ops
  induction ops with
  | nil =>
    intro s tr s' tr' h
    unfold applyLoop at h
    simp only [Except.ok.injEq, Prod.mk.injEq] at h
    exact ⟨[], by simp [h.2.symm], List.nodup_nil, by simp⟩
  | cons op rest ih =>
    intro s tr s' tr' h
    unfold applyLoop at h
    by_cases hseen : registryHas s.applied_remote_ops op.remote_id
    · rw [if_pos hseen] at h
      exact ih s tr s' tr' h
    · rw [if_neg hseen] at h
      cases happ : applier s.domain op with
      | error e => rw [happ] at h; exact absurd h (by simp)
      | ok d =>
        rw [happ] at h
        obtain ⟨delta', hdeq, hdnodup, hdprops⟩ := ih _ _ s' tr' h
        have hmid : registryHas
            (s.applied_remote_ops ++ [(op.remote_id, now_ms)]) op.remote_id = true := by
          simp [registryHas_append]
        refine ⟨op.remote_id :: delta', by simpa [List.append_assoc] using hdeq, ?_, ?_⟩
        · refine List.nodup_cons.mpr ⟨fun hmem => ?_, hdnodup⟩
          have := (hdprops op.remote_id hmem).1
          rw [this] at hmid
          exact absurd hmid (by simp)
        · intro rid hrid
          rcases List.mem_cons.mp hrid with hrid | hrid
          · subst hrid
            refine ⟨by simpa using hseen, ?_⟩
            exact applyLoop_registry_mono applier now_ms rest _ _ s' tr' h op.remote_id hmid
          · have hfalse := (hdprops rid hrid).1
            refine ⟨?_, (hdprops rid hrid).2⟩
            by_contra hcon
            have : registryHas (s.applied_remote_ops ++ [(op.remote_id, now_ms)]) rid = true := by
              simp only [registryHas_append]
              simp only [Bool.not_eq_false] at hcon
              simp [hcon]
            rw [this] at hfalse
            exact absurd hfalse (by simp)

theorem runBatches_cons {δ : Type} (applier : δ → RemoteOp → Except SyncError δ)
    (now_ms : Int) (b : List RemoteOp) (bs : List (List RemoteOp)) (s : Store δ) :
    runBatches applier now_ms (b :: bs) s
      = ((runBatches applier now_ms bs (apply_remote_ops applier now_ms b s).2.1).1,
          (apply_remote_ops applier now_ms b s).2.2
            ++ (runBatches applier now_ms bs (apply_remote_ops applier now_ms b s).2.1).2) :=
  rfl

theorem apply_remote_ops_error_eq {δ : Type} (applier : δ → RemoteOp → Except SyncError δ)
    (now_ms : Int) (ops : List RemoteOp) (s : Store δ) (e : SyncError)
    (hl : applyLoop applier now_ms ops s [] = .error e) :
    apply_remote_ops applier now_ms ops s = (.error e, s, []) := by
  unfold apply_remote_ops
  rw [hl]

theorem apply_remote_ops_ok_eq {δ : Type} (applier : δ → RemoteOp → Except SyncError δ)
    (now_ms : Int) (ops : List RemoteOp) (s : Store δ) (s1 : Store δ) (tr : List String)
    (hl : applyLoop applier now_ms ops s [] = .ok (s1, tr)) :
    apply_remote_ops applier now_ms ops s = (.ok (), s1, tr) := by
  unfold apply_remote_ops
  rw [hl]

/-- C1: across any sequence of `apply_remote_ops` calls, the applier
invocations that commit are pairwise distinct in `remote_id` — each
`remote_id` is applied at most once over all successful batches, duplicate
occurrences (also within one batch) being skipped by the
`applied_remote_ops` registry lookup — and no committed invocation targets
a `remote_id` already in the registry before the sequence. -/
theorem remote_apply_exactly_once :
    ∀ (δ : Type) (applier : δ → RemoteOp → Except SyncError δ) (now_ms : Int)
      (batches : List (List RemoteOp)) (s : Store δ),
      (runBatches applier now_ms batches s).2.Nodup
      ∧ ∀ rid ∈ (runBatches applier now_ms batches s).2,
          registryHas s.applied_remote_ops rid = false := by
  intro δ applier now batches
  induction batches with
  | nil => intro s; exact ⟨List.nodup_nil, by simp [runBatches]⟩
  | cons b bs ih =>
    intro s
    rw [runBatches_cons]
    cases hl : applyLoop applier now b s [] with
    | error e =>
      rw [apply_remote_ops_error_eq applier now b s e hl]
      simpa using ih s
    | ok p =>
      obtain ⟨s1, tr⟩ := p
      rw [apply_remote_ops_ok_eq applier now b s s1 tr hl]
      simp only
      obtain ⟨delta, hdeq, hdnodup, hdprops⟩ := applyLoop_trace applier now b s [] s1 tr hl
      simp only [List.nil_append] at hdeq
      subst hdeq
      have hmono := applyLoop_registry_mono applier now b s [] s1 tr hl
      obtain ⟨ihnodup, ihfresh⟩ := ih s1
      constructor
      · refine List.Nodup.append hdnodup ihnodup ?_
        intro rid hrid1 hrid2
        have h1 := (hdprops rid hrid1).2
        have h2 := ihfresh rid hrid2
        rw [h1] at h2
        exact absurd h2 (by simp)
      · intro rid hrid
        simp only [List.mem_append] at hrid
        rcases hrid with hrid | hrid
        · exact (hdprops rid hrid).1
        · have h2 := ihfresh rid hrid
          by_contra hcon
          simp only [Bool.not_eq_false] at hcon
          rw [hmono rid hcon] at h2
          exact absurd h2 (by simp)

/-! ### C3: `sync_status` lifecycle -/

theorem statusRank_le_two (s : String) : statusRank s ≤ 2 := by
  unfold statusRank
  split_ifs <;> omega

theorem statusRank_le_one_of_ne_acked (s : String) (h : s ≠ "acked") :
    statusRank s ≤ 1 := by
  unfold statusRank
  rw [if_neg h]
  split_ifs <;> omega

theorem engStep_status_mono {δ : Type} (toStr : Json → String) (op : EngOp) (s : Store δ)
    (hop : pushedOk op s) (i : Nat) (r : Row) (hr : s.local_changes[i]? = some r) :
    ∃ r', (engStep toStr op s).local_changes[i]? = some r'
      ∧ statusRank r.sync_status ≤ statusRank r'.sync_status
      ∧ r'.change_id = r.change_id := by
  have hmem : r ∈ s.local_changes := List.getElem?_mem hr
  obtain ⟨hlt, -⟩ := List.getElem?_eq_some.mp hr
  cases op with
  | logChange t rid ot c n o hlc org =>
    unfold engStep log_local_change
    by_cases hdup : s.local_changes.any (fun x => x.hlc = hlc && x.origin = org)
    · simp only [hdup, if_true]
      exact ⟨r, hr, le_refl _, rfl⟩
    · simp only [hdup, if_false]
      refine ⟨r, ?_, le_refl _, rfl⟩
      simpa [List.getElem?_append_left hlt] using hr
  | markPushed ids =>
    unfold engStep mark_ops_pushed setStatus
    simp only [List.getElem?_map, hr, Option.map_some]
    by_cases hin : r.change_id ∈ ids
    · refine ⟨{ r with sync_status := "pushed" }, by simp [hin], ?_, rfl⟩
      have hne : r.sync_status ≠ "acked" := hop r hmem hin
      simpa [statusRank] using statusRank_le_one_of_ne_acked r.sync_status hne
    · exact ⟨r, by simp [hin], le_refl _, rfl⟩
  | markAcked ids =>
    unfold engStep mark_ops_acked setStatus
    simp only [List.getElem?_map, hr, Option.map_some]
    by_cases hin : r.change_id ∈ ids
    · refine ⟨{ r with sync_status := "acked" }, by simp [hin], ?_, rfl⟩
      simpa [statusRank] using statusRank_le_two r.sync_status
    · exact ⟨r, by simp [hin], le_refl _, rfl⟩

/-- C3 (amended): along any sequence of `log_*`, `mark_ops_pushed`,
`mark_ops_acked` in which `mark_ops_pushed` is never invoked with the id
of a row already `'acked'`, every stored row's `sync_status` only advances
along `pending → pushed → acked` (rows keep their identity and position;
`log_*` only appends new `pending` rows). The guard is necessary: the
unconditional `UPDATE` in `mark_ops_pushed` moves an `'acked'` row back to
`'pushed'` (see the counterexample). -/
theorem sync_status_monotone :
    ∀ (δ : Type) (toStr : Json → String) (ops : List EngOp) (s : Store δ),
      Guarded toStr ops s →
      ∀ (i : Nat) (r : Row), s.local_changes[i]? = some r →
        ∃ r', (engRun toStr ops s).local_changes[i]? = some r'
          ∧ statusRank r.sync_status ≤ statusRank r'.sync_status
          ∧ r'.change_id = r.change_id := by
  intro δ toStr ops
  induction ops with
  | nil => intro s _ i r hr; exact ⟨r, hr, le_refl _, rfl⟩
  | cons op rest ih =>
    intro s hg i r hr
    obtain ⟨hop, hg'⟩ := hg
    obtain ⟨r1, hr1, hle1, hid1⟩ := engStep_status_mono toStr op s hop i r hr
    obtain ⟨r', hr', hle2, hid2⟩ := ih (engStep toStr op s) hg' i r1 hr1
    exact ⟨r', hr', le_trans hle1 hle2, hid2.trans hid1⟩

/-- A row already acknowledged by the server. -/
def ackedRow : Row :=
  { change_id := 1, table_name := "trips", row_id := "t1", op_type := "INSERT"
    columns := none, new_row := none, old_row := none
    hlc := "1-0-A", origin := "A", sync_status := "acked" }

/-- A store holding only `ackedRow`. -/
def ackedStore : Store Unit :=
  { local_changes := [ackedRow]
    next_change_id := 2
    applied_remote_ops := []
    sync_kv := [("schema_version", "1")]
    domain := () }

/-- C3 counterexample: `mark_ops_pushed` on the id of an `'acked'` row sets
it back to `'pushed'` — the claim that such a row stays `'acked'` fails on
the code's unconditional `UPDATE`. -/
theorem mark_ops_pushed_regresses_acked :
    (mark_ops_pushed [1] ackedStore).2.local_changes.map (fun r => r.sync_status)
        = ["pushed"]
    ∧ ackedStore.local_changes.map (fun r => r.sync_status) = ["acked"]
    ∧ ("pushed" : String) ≠ "acked" :=
  ⟨rfl, rfl, by decide⟩

/-- A freshly logged row, still pending. -/
def pendingRow : Row :=
  { change_id := 1, table_name := "trips", row_id := "t1", op_type := "INSERT"
    columns := none, new_row := none, old_row := none
    hlc := "1-0-A", origin := "A", sync_status := "pending" }

/-- A store holding only `pendingRow`. -/
def pendingStore : Store Unit :=
  { local_changes := [pendingRow]
    next_change_id := 2
    applied_remote_ops := []
    sync_kv := [("schema_version", "1")]
    domain := () }

/-- Witness for C3: a guarded sequence (an ack of the pending row) is
satisfiable and the row's status only advances. -/
theorem sync_status_monotone_witness :
    Guarded (fun _ => "null") [EngOp.markAcked [1]] pendingStore
    ∧ ∃ r', (engRun (fun _ => "null") [EngOp.markAcked [1]] pendingStore).local_changes[0]?
          = some r'
        ∧ statusRank pendingRow.sync_status ≤ statusRank r'.sync_status
        ∧ r'.change_id = pendingRow.change_id :=
  ⟨⟨trivial, trivial⟩,
    sync_status_monotone Unit (fun _ => "null") [EngOp.markAcked [1]] pendingStore
      ⟨trivial, trivial⟩ 0 pendingRow rfl⟩

/-! ### C6: `sync_cycle` and the remote cursor -/

theorem syncStep1_sync_kv {δ : Type} (fromStr : String → Option Json)
    (push : List Change → Except SyncError (List Int)) (limit : Int)
    (s s1 : Store δ) (h : syncStep1 fromStr push limit s = .ok s1) :
    s1.sync_kv = s.sync_kv := by
  unfold syncStep1 at h
  by_cases he : (get_pending_ops fromStr limit s).isEmpty
  · rw [if_pos he] at h
    obtain rfl : s = s1 := by simpa using h
    rfl
  · rw [if_neg he] at h
    cases hp : push (get_pending_ops fromStr limit s) with
    | error e => rw [hp] at h; exact absurd h (by simp)
    | ok acked =>
      rw [hp] at h
      obtain rfl : (mark_ops_acked acked s).2 = s1 := by simpa using h
      rfl

theorem applyLoop_sync_kv {δ : Type} (applier : δ → RemoteOp → Except SyncError δ)
    (now_ms : Int) :
    ∀ (ops : List RemoteOp) (s : Store δ) (tr : List String) (s' : Store δ)
      (tr' : List String),
      applyLoop applier now_ms ops s tr = .ok (s', tr') → s'.sync_kv = s.sync_kv := by
  intro ops
  induction ops with
  | nil =>
    intro s tr s' tr' h
    unfold applyLoop at h
    simp only [Except.ok.injEq, Prod.mk.injEq] at h
    rw [← h.1]
  | cons op rest ih =>
    intro s tr s' tr' h
    unfold applyLoop at h
    by_cases hseen : registryHas s.applied_remote_ops op.remote_id
    · rw [if_pos hseen] at h
      exact ih s tr s' tr' h
    · rw [if_neg hseen] at h
      cases happ : applier s.domain op with
      | error e => rw [happ] at h; exact absurd h (by simp)
      | ok d =>
        rw [happ] at h
        exact ih { s with domain := d, applied_remote_ops := s.applied_remote_ops ++ [(op.remote_id, now_ms)] } (tr ++ [op.remote_id]) s' tr' h

theorem get_remote_cursor_set {δ : Type} (c : String) (s : Store δ) :
    get_remote_cursor (set_remote_cursor c s) = some c := by
  unfold get_remote_cursor set_remote_cursor
  simp [assocGet_assocSet]

theorem sync_cycle_eq_step1_error {δ : Type} (fromStr : String → Option Json)
    (applier : δ → RemoteOp → Except SyncError δ)
    (push : List Change → Except SyncError (List Int))
    (pull : Option String → Except SyncError (List RemoteOp × Option String))
    (limit now_ms : Int) (s : Store δ) (e : SyncError)
    (h1 : syncStep1 fromStr push limit s = .error e) :
    sync_cycle fromStr applier push pull limit now_ms s = (.error e, s) := by
  unfold sync_cycle
  rw [h1]

theorem sync_cycle_eq_pull_error {δ : Type} (fromStr : String → Option Json)
    (applier : δ → RemoteOp → Except SyncError δ)
    (push : List Change → Except SyncError (List Int))
    (pull : Option String → Except SyncError (List RemoteOp × Option String))
    (limit now_ms : Int) (s s1 : Store δ) (e : SyncError)
    (h1 : syncStep1 fromStr push limit s = .ok s1)
    (h2 : pull (get_remote_cursor s1) = .error e) :
    sync_cycle fromStr applier push pull limit now_ms s = (.error e, s1) := by
  unfold sync_cycle
  simp [h1, h2]

theorem sync_cycle_eq_empty {δ : Type} (fromStr : String → Option Json)
    (applier : δ → RemoteOp → Except SyncError δ)
    (push : List Change → Except SyncError (List Int))
    (pull : Option String → Except SyncError (List RemoteOp × Option String))
    (limit now_ms : Int) (s s1 : Store δ) (ops : List RemoteOp) (nc : Option String)
    (h1 : syncStep1 fromStr push limit s = .ok s1)
    (h2 : pull (get_remote_cursor s1) = .ok (ops, nc))
    (he : ops.isEmpty = true) :
    sync_cycle fromStr applier push pull limit now_ms s
      = (match nc with
          | some c => (.ok (), set_remote_cursor c s1)
          | none => (.ok (), s1)) := by
  unfold sync_cycle
  cases nc with
  | none => simp [h1, h2, he]
  | some c => simp [h1, h2, he]

theorem sync_cycle_eq_apply_error {δ : Type} (fromStr : String → Option Json)
    (applier : δ → RemoteOp → Except SyncError δ)
    (push : List Change → Except SyncError (List Int))
    (pull : Option String → Except SyncError (List RemoteOp × Option String))
    (limit now_ms : Int) (s s1 : Store δ) (ops : List RemoteOp) (nc : Option String)
    (e : SyncError) (s2 : Store δ) (tr : List String)
    (h1 : syncStep1 fromStr push limit s = .ok s1)
    (h2 : pull (get_remote_cursor s1) = .ok (ops, nc))
    (he : ops.isEmpty = false)
    (h3 : apply_remote_ops applier now_ms ops s1 = (.error e, s2, tr)) :
    sync_cycle fromStr applier push pull limit now_ms s = (.error e, s1) := by
  unfold sync_cycle
  simp [h1, h2, he, h3]

theorem sync_cycle_eq_apply_ok {δ : Type} (fromStr : String → Option Json)
    (applier : δ → RemoteOp → Except SyncError δ)
    (push : List Change → Except SyncError (List Int))
    (pull : Option String → Except SyncError (List RemoteOp × Option String))
    (limit now_ms : Int) (s s1 : Store δ) (ops : List RemoteOp) (nc : Option String)
    (u : Unit) (s2 : Store δ) (tr : List String)
    (h1 : syncStep1 fromStr push limit s = .ok s1)
    (h2 : pull (get_remote_cursor s1) = .ok (ops, nc))
    (he : ops.isEmpty = false)
    (h3 : apply_remote_ops applier now_ms ops s1 = (.ok u, s2, tr)) :
    sync_cycle fromStr applier push pull limit now_ms s
      = (match nc with
          | some c => (.ok (), set_remote_cursor c s2)
          | none => (.ok (), s2)) := by
  unfold sync_cycle
  cases nc with
  | none => simp [h1, h2, he, h3]
  | some c => simp [h1, h2, he, h3]

/-- C6: the stored `remote_cursor` is never advanced by a failed
`sync_cycle` — in particular, when the apply of a non-empty pulled batch
fails, `sync_cycle` surfaces that error and the cursor keeps its pre-call
value — while a successful cycle whose pull produced `new_cursor = some c`
persists `c`. -/
theorem sync_cycle_cursor :
    ∀ (δ : Type) (fromStr : String → Option Json)
      (applier : δ → RemoteOp → Except SyncError δ)
      (push : List Change → Except SyncError (List Int))
      (pull : Option String → Except SyncError (List RemoteOp × Option String))
      (limit now_ms : Int) (s : Store δ),
      (∀ e, (sync_cycle fromStr applier push pull limit now_ms s).1 = Except.error e →
          get_remote_cursor (sync_cycle fromStr applier push pull limit now_ms s).2
            = get_remote_cursor s)
      ∧ (∀ ops c,
          (sync_cycle fromStr applier push pull limit now_ms s).1 = Except.ok () →
          pull (get_remote_cursor s) = Except.ok (ops, some c) →
          get_remote_cursor (sync_cycle fromStr applier push pull limit now_ms s).2 = some c)
      ∧ (∀ s1 ops nc e,
          syncStep1 fromStr push limit s = Except.ok s1 →
          pull (get_remote_cursor s1) = Except.ok (ops, nc) →
          ops ≠ [] →
          (apply_remote_ops applier now_ms ops s1).1 = Except.error e →
          (sync_cycle fromStr applier push pull limit now_ms s).1 = Except.error e
            ∧ get_remote_cursor (sync_cycle fromStr applier push pull limit now_ms s).2
                = get_remote_cursor s) := by
  intro δ fromStr applier push pull limit now s
  cases h1 : syncStep1 fromStr push limit s with
  | error e0 =>
    have hsc := sync_cycle_eq_step1_error fromStr applier push pull limit now s e0 h1
    refine ⟨fun e he => by rw [hsc], fun ops c hok _ => ?_, fun s1 ops nc e h1' => ?_⟩
    · rw [hsc] at hok; exact absurd hok (by simp)
    · exact absurd h1' (by simp)
  | ok s1 =>
    have hkv : s1.sync_kv = s.sync_kv := syncStep1_sync_kv fromStr push limit s s1 h1
    have hcur : get_remote_cursor s1 = get_remote_cursor s := by
      unfold get_remote_cursor; rw [hkv]
    cases h2 : pull (get_remote_cursor s1) with
    | error e0 =>
      have hsc := sync_cycle_eq_pull_error fromStr applier push pull limit now s s1 e0 h1 h2
      refine ⟨fun e he => by rw [hsc]; exact hcur, fun ops c hok hpull => ?_,
        fun s1' ops nc e h1' h2' => ?_⟩
      · rw [hsc] at hok; exact absurd hok (by simp)
      · obtain rfl : s1 = s1' := by simpa using h1'
        rw [h2] at h2'; exact absurd h2' (by simp)
    | ok pr =>
      obtain ⟨ops0, nc0⟩ := pr
      by_cases hemp : ops0.isEmpty
      · have hsc := sync_cycle_eq_empty fromStr applier push pull limit now s s1 ops0 nc0
          h1 h2 hemp
        refine ⟨fun e he => ?_, fun ops c hok hpull => ?_, fun s1' ops nc e h1' h2' hne _ => ?_⟩
        · rw [hsc] at he
          cases nc0 <;> simp at he
        · rw [hcur] at h2
          rw [h2] at hpull
          obtain ⟨rfl, rfl⟩ : ops0 = ops ∧ nc0 = some c := by simpa using hpull
          rw [hsc]
          exact get_remote_cursor_set c s1
        · obtain rfl : s1 = s1' := by simpa using h1'
          rw [h2] at h2'
          obtain ⟨rfl, rfl⟩ : ops0 = ops ∧ nc0 = nc := by simpa using h2'
          exact absurd (List.isEmpty_iff.mp hemp) hne
      · have hemp' : ops0.isEmpty = false := by simpa using hemp
        cases h3 : apply_remote_ops applier now ops0 s1 with
        | mk res p2 =>
          obtain ⟨s2, tr⟩ := p2
          cases res with
          | error e0 =>
            have hsc := sync_cycle_eq_apply_error fromStr applier push pull limit now s s1
              ops0 nc0 e0 s2 tr h1 h2 hemp' h3
            refine ⟨fun e he => by rw [hsc]; exact hcur, fun ops c hok hpull => ?_,
              fun s1' ops nc e h1' h2' hne happ => ?_⟩
            · rw [hsc] at hok; exact absurd hok (by simp)
            · obtain rfl : s1 = s1' := by simpa using h1'
              rw [h2] at h2'
              obtain ⟨rfl, rfl⟩ : ops0 = ops ∧ nc0 = nc := by simpa using h2'
              have he0 : e0 = e := by
                rw [h3] at happ; simpa using happ
              subst he0
              exact ⟨by rw [hsc], by rw [hsc]; exact hcur⟩
          | ok u =>
            have hloop : applyLoop applier now ops0 s1 [] = .ok (s2, tr) := by
              unfold apply_remote_ops at h3
              cases hl : applyLoop applier now ops0 s1 [] with
              | error e' => rw [hl] at h3; exact absurd h3 (by simp)
              | ok p =>
                obtain ⟨sx, trx⟩ := p
                rw [hl] at h3
                simp only [Prod.mk.injEq, Except.ok.injEq] at h3
                rw [h3.2.1, h3.2.2]
            have hkv2 : s2.sync_kv = s1.sync_kv :=
              applyLoop_sync_kv applier now ops0 s1 [] s2 tr hloop
            have hcur2 : get_remote_cursor s2 = get_remote_cursor s := by
              unfold get_remote_cursor; rw [hkv2, hkv]
            have hsc := sync_cycle_eq_apply_ok fromStr applier push pull limit now s s1
              ops0 nc0 u s2 tr h1 h2 hemp' h3
            refine ⟨fun e he => ?_, fun ops c hok hpull => ?_,
              fun s1' ops nc e h1' h2' hne happ => ?_⟩
            · rw [hsc] at he
              cases nc0 <;> simp at he
            · rw [hcur] at h2
              rw [h2] at hpull
              obtain ⟨rfl, rfl⟩ : ops0 = ops ∧ nc0 = some c := by simpa using hpull
              rw [hsc]
              exact get_remote_cursor_set c s2
            · obtain rfl : s1 = s1' := by simpa using h1'
              rw [h2] at h2'
              obtain ⟨rfl, rfl⟩ : ops0 = ops ∧ nc0 = nc := by simpa using h2'
              rw [h3] at happ
              exact absurd happ (by simp)

/-- A remote op pulled in the C6 witness scenario. -/
def c6Op : RemoteOp :=
  { remote_id := "r9", table_name := "t", row_id := "9", op_type := .Update
    columns := none, new_row := none, old_row := none, hlc := "9-0-S", origin := "S" }

/-- A pull transport returning one op and a new cursor. -/
def c6Pull : Option String → Except SyncError (List RemoteOp × Option String) :=
  fun _ => .ok ([c6Op], some "c1")

/-- A push transport that acks nothing. -/
def c6Push : List Change → Except SyncError (List Int) :=
  fun _ => .ok []

/-- Witness for C6: with an always-failing applier, the apply-failure
hypotheses hold concretely and the cursor is untouched. -/
theorem sync_cycle_cursor_witness :
    syncStep1 (fun _ => none) c6Push 10 (initStore ()) = Except.ok (initStore ())
    ∧ ((sync_cycle (fun _ => none) failApplier c6Push c6Pull 10 0 (initStore ())).1
          = Except.error (SyncError.State "applier failed")
        ∧ get_remote_cursor
            (sync_cycle (fun _ => none) failApplier c6Push c6Pull 10 0 (initStore ())).2
          = get_remote_cursor (initStore ())) :=
  ⟨rfl,
    (sync_cycle_cursor Unit (fun _ => none) failApplier c6Push c6Pull 10 0
        (initStore ())).2.2 (initStore ()) [c6Op] (some "c1")
      (SyncError.State "applier failed") rfl rfl (List.cons_ne_nil c6Op []) rfl⟩

/-- Decidable equality for `Except`, used to evaluate concrete engine
results. -/
instance {e a : Type} [DecidableEq e] [DecidableEq a] : DecidableEq (Except e a) := fun x y =>
  match x, y with
  | .error u, .error v =>
    if h : u = v then .isTrue (by rw [h]) else .isFalse (by intro hc; cases hc; exact h rfl)
  | .error _, .ok _ => .isFalse (by intro hc; cases hc)
  | .ok _, .error _ => .isFalse (by intro hc; cases hc)
  | .ok u, .ok v =>
    if h : u = v then .isTrue (by rw [h]) else .isFalse (by intro hc; cases hc; exact h rfl)

/-! ### C5: HLC advance vs. row insert -/

theorem log_local_change_split {δ : Type} (toStr : Json → String) (t rid : String)
    (ot : OpType) (c n o : Option Json) (hlc org : String) (s : Store δ) :
    (log_local_change toStr t rid ot c n o hlc org s).2.sync_kv = s.sync_kv
    ∧ ∀ e, (log_local_change toStr t rid ot c n o hlc org s).1 = .error e →
        (log_local_change toStr t rid ot c n o hlc org s).2.local_changes
          = s.local_changes := by
  unfold log_local_change
  by_cases hdup : s.local_changes.any (fun x => x.hlc = hlc && x.origin = org)
  · simp [hdup]
  · simp [hdup]

/-- C5 (amended): each `log_*` convenience operation runs the HLC advance
and the row insert as two separate transactions. The HLC advance commits
first — the final `sync_kv` always equals the post-`next_hlc` state — and
when the row insert then fails (e.g. on the `UNIQUE(hlc, origin)`
constraint) the error is surfaced and no row is inserted, but the
persisted HLC state keeps the advanced values instead of rolling back. -/
theorem log_hlc_two_transactions :
    ∀ (δ : Type) (toStr : Json → String) (now_ms : Int) (t rid : String)
      (nr : Json) (cols nrow orow : Option Json) (org : String) (s : Store δ),
      ((log_insert_fullrow toStr now_ms t rid nr org s).2.sync_kv
          = (next_hlc now_ms org s).2.sync_kv
        ∧ ∀ e, (log_insert_fullrow toStr now_ms t rid nr org s).1 = .error e →
            (log_insert_fullrow toStr now_ms t rid nr org s).2.local_changes
              = s.local_changes)
      ∧ ((log_update toStr now_ms t rid cols nrow orow org s).2.sync_kv
          = (next_hlc now_ms org s).2.sync_kv
        ∧ ∀ e, (log_update toStr now_ms t rid cols nrow orow org s).1 = .error e →
            (log_update toStr now_ms t rid cols nrow orow org s).2.local_changes
              = s.local_changes)
      ∧ ((log_delete toStr now_ms t rid org s).2.sync_kv
          = (next_hlc now_ms org s).2.sync_kv
        ∧ ∀ e, (log_delete toStr now_ms t rid org s).1 = .error e →
            (log_delete toStr now_ms t rid org s).2.local_changes
              = s.local_changes) := by
  intro δ toStr now t rid nr cols nrow orow org s
  refine ⟨⟨?_, ?_⟩, ⟨?_, ?_⟩, ⟨?_, ?_⟩⟩
  · exact (log_local_change_split toStr t rid .Insert none (some nr) none
      (next_hlc now org s).1 org (next_hlc now org s).2).1
  · exact fun e he => (log_local_change_split toStr t rid .Insert none (some nr) none
      (next_hlc now org s).1 org (next_hlc now org s).2).2 e he
  · exact (log_local_change_split toStr t rid .Update cols nrow orow
      (next_hlc now org s).1 org (next_hlc now org s).2).1
  · exact fun e he => (log_local_change_split toStr t rid .Update cols nrow orow
      (next_hlc now org s).1 org (next_hlc now org s).2).2 e he
  · exact (log_local_change_split toStr t rid .Delete none none none
      (next_hlc now org s).1 org (next_hlc now org s).2).1
  · exact fun e he => (log_local_change_split toStr t rid .Delete none none none
      (next_hlc now org s).1 org (next_hlc now org s).2).2 e he

/-- A row whose `(hlc, origin)` collides with the next token the HLC
generator will produce at wall-clock 1000. -/
def clashRow : Row :=
  { change_id := 1, table_name := "trips", row_id := "t1", op_type := "INSERT"
    columns := none, new_row := none, old_row := none
    hlc := "1000-0-A", origin := "A", sync_status := "acked" }

/-- A store where the next generated HLC token collides with an existing
row's `(hlc, origin)` pair. -/
def hlcClashStore : Store Unit :=
  { local_changes := [clashRow]
    next_change_id := 2
    applied_remote_ops := []
    sync_kv := [("schema_version", "1")]
    domain := () }

/-- C5 counterexample: at `hlcClashStore` with the clock at 1000,
`log_insert_fullrow` fails on the unique `(hlc, origin)` constraint, yet
the persisted HLC state was advanced (`hlc_last_ms` goes from absent to
`"1000"`): the HLC advance and the row insert do not commit or roll back
as one atomic unit. -/
theorem log_insert_fullrow_not_atomic :
    (log_insert_fullrow (fun _ => "null") 1000 "trips" "t2" Json.null "A" hlcClashStore).1
        = Except.error
            (SyncError.Sqlite "UNIQUE constraint failed: local_changes.hlc, local_changes.origin")
    ∧ assocGet (log_insert_fullrow (fun _ => "null") 1000 "trips" "t2" Json.null "A"
          hlcClashStore).2.sync_kv "hlc_last_ms" = some "1000"
    ∧ assocGet hlcClashStore.sync_kv "hlc_last_ms" = none :=
  ⟨by decide, by decide, by decide⟩

/-- Witness for C5: the insert-failure hypothesis of the amended claim is
satisfiable at `hlcClashStore`, where the failed insert leaves no new
row. -/
theorem log_hlc_two_transactions_witness :
    (log_insert_fullrow (fun _ => "null") 1000 "trips" "t2" Json.null "A"
        hlcClashStore).2.local_changes = hlcClashStore.local_changes :=
  (log_hlc_two_transactions Unit (fun _ => "null") 1000 "trips" "t2" Json.null
      none none none "A" hlcClashStore).1.2
    (SyncError.Sqlite "UNIQUE constraint failed: local_changes.hlc, local_changes.origin")
    (by decide)

/-- Witness for C8: the hypotheses of the second and third conjuncts are
satisfiable at concrete inputs. -/
theorem lww_merge_row_spec_witness :
    lww_merge_row (Json.num 3) (Json.num 4) (some ["a"]) = Json.num 3
    ∧ (lww_merge_row (Json.obj [("a", Json.num 1)]) (Json.obj [("a", Json.num 5)])
        (some ["a"])).get "a"
        = if "a" ∈ ["a"] ∧ ((Json.obj [("a", Json.num 5)]).get "a").isSome
          then (Json.obj [("a", Json.num 5)]).get "a"
          else (Json.obj [("a", Json.num 1)]).get "a" :=
  ⟨lww_merge_row_spec.2.1 _ _ _ rfl, lww_merge_row_spec.2.2.1 _ _ _ _ rfl⟩

/-! ### C4: HLC strict monotonicity -/

theorem digitChar_mem (n : Nat) :
    digitChar n ∈ ['0', '1', '2', '3', '4', '5', '6', '7', '8', '9'] := by
  rcases n with _|_|_|_|_|_|_|_|_|n <;> simp [digitChar]

theorem digitChar_spec (n : Nat) :
    (digitChar n).isDigit = true ∧ digitChar n ≠ '-' ∧ digitChar n ≠ '+' := by
  have h := digitChar_mem n
  simp only [List.mem_cons, List.not_mem_nil, or_false] at h
  rcases h with h|h|h|h|h|h|h|h|h|h <;> rw [h] <;>
    exact ⟨by decide, by decide, by decide⟩

theorem digitChar_val (n : Nat) (h : n < 10) : (digitChar n).toNat - 48 = n := by
  interval_cases n <;> decide

theorem natToDigitsGo_spec (n : Nat) :
    ∀ fuel, n < fuel →
      natToDigitsGo fuel n ≠ []
      ∧ (∀ c ∈ natToDigitsGo fuel n, c.isDigit = true ∧ c ≠ '-' ∧ c ≠ '+')
      ∧ (natToDigitsGo fuel n).foldl (fun acc c => acc * 10 + (c.toNat - 48)) 0 = n := by
  induction n using Nat.strong_induction_on with
  | _ n ih =>
    intro fuel hf
    match fuel, hf with
    | fuel + 1, hf =>
      by_cases h10 : n < 10
      · refine ⟨by simp [natToDigitsGo, h10], ?_, ?_⟩
        · intro c hc
          simp only [natToDigitsGo, if_pos h10, List.mem_singleton] at hc
          subst hc
          exact digitChar_spec n
        · simp [natToDigitsGo, h10, digitChar_val n h10]
      · have hdiv : n / 10 < n := Nat.div_lt_self (by omega) (by omega)
        have hfuel : n / 10 < fuel := by omega
        obtain ⟨hne, hall, hval⟩ := ih (n / 10) hdiv fuel hfuel
        refine ⟨?_, ?_, ?_⟩
        · simp [natToDigitsGo, h10, hne]
        · intro c hc
          simp only [natToDigitsGo, if_neg h10, List.mem_append, List.mem_singleton] at hc
          rcases hc with hc | hc
          · exact hall c hc
          · subst hc
            exact digitChar_spec (n % 10)
        · have hmod : n % 10 < 10 := Nat.mod_lt _ (by omega)
          simp only [natToDigitsGo, if_neg h10, List.foldl_append, List.foldl_cons,
            List.foldl_nil, hval, digitChar_val (n % 10) hmod]
          omega

theorem natToDigits_spec (n : Nat) :
    natToDigits n ≠ []
    ∧ (∀ c ∈ natToDigits n, c.isDigit = true ∧ c ≠ '-' ∧ c ≠ '+')
    ∧ (natToDigits n).foldl (fun acc c => acc * 10 + (c.toNat - 48)) 0 = n :=
  natToDigitsGo_spec n (n + 1) (Nat.lt_succ_self n)

theorem intToString_data_of_nonneg (m : Int) (h0 : 0 ≤ m) :
    (intToString m).data = natToDigits m.toNat := by
  unfold intToString
  rw [if_neg (by omega)]

theorem parseRustInt_intToString (lo hi m : Int) (hlo : lo ≤ 0) (h0 : 0 ≤ m)
    (hhi : m ≤ hi) :
    parseRustInt lo hi (intToString m).data = some m := by
  obtain ⟨hne, hall, hval⟩ := natToDigits_spec m.toNat
  rw [intToString_data_of_nonneg m h0]
  obtain ⟨c, cs, hcons⟩ := List.exists_cons_of_ne_nil hne
  rw [hcons] at hall hval ⊢
  have hc := hall c (List.mem_cons_self c cs)
  have hplus : ¬c = '+' := hc.2.2
  have hdash : ¬c = '-' := hc.2.1
  have hdigits : (c :: cs).all (fun ch => ch.isDigit) = true :=
    List.all_eq_true.mpr fun ch hch => (hall ch hch).1
  unfold parseRustInt
  simp only [hplus, hdash, if_false, reduceCtorEq, hdigits, if_true, hval]
  have hcast : (1 : Int) * (m.toNat : Int) = m := by
    rw [one_mul, Int.toNat_of_nonneg h0]
  rw [hcast]
  rw [if_pos ⟨by omega, hhi⟩]

theorem breakDash_append (l rest : List Char) (h : ∀ c ∈ l, c ≠ '-') :
    breakDash (l ++ '-' :: rest) = (l, some rest) := by
  induction l with
  | nil => simp [breakDash]
  | cons c cs ih =>
    have hc : ¬c = '-' := h c (List.mem_cons_self c cs)
    simp [breakDash, hc, ih fun x hx => h x (List.mem_cons_of_mem c hx)]

theorem i64Max_le_i128Max : i64Max ≤ i128Max := by decide

theorem parse_hlc_token (ms ctr : Int) (org : String)
    (hm0 : 0 ≤ ms) (hm : ms ≤ i64Max) (hc0 : 0 ≤ ctr) (hc : ctr ≤ i64Max) :
    parse_hlc (hlcToken ms ctr org) = (ms, ctr, org) := by
  have hmd := natToDigits_spec ms.toNat
  have hcd := natToDigits_spec ctr.toNat
  unfold hlcToken parse_hlc
  have hdata : (intToString ms ++ "-" ++ intToString ctr ++ "-" ++ org).data
      = natToDigits ms.toNat ++ '-' :: (natToDigits ctr.toNat ++ '-' :: org.data) := by
    simp [intToString_data_of_nonneg ms hm0, intToString_data_of_nonneg ctr hc0]
  rw [hdata]
  rw [breakDash_append _ _ fun ch hch => (hmd.2.1 ch hch).2.1]
  simp only
  rw [breakDash_append _ _ fun ch hch => (hcd.2.1 ch hch).2.1]
  simp only
  rw [← intToString_data_of_nonneg ms hm0,
    parseRustInt_intToString i128Min i128Max ms (by decide) hm0
      (le_trans hm i64Max_le_i128Max)]
  rw [← intToString_data_of_nonneg ctr hc0,
    parseRustInt_intToString i64Min i64Max ctr (by decide) hc0 hc]
  rfl

theorem kvReadI64_set_same (kv : List (String × String)) (key : String) (v : Int)
    (h0 : 0 ≤ v) (hmax : v ≤ i64Max) :
    kvReadI64 (assocSet kv key (intToString v)) key = v := by
  unfold kvReadI64
  rw [assocGet_assocSet, if_pos rfl]
  show (parseRustInt i64Min i64Max (intToString v).data).getD 0 = v
  rw [parseRustInt_intToString i64Min i64Max v (by decide) h0 hmax]
  rfl

theorem kvReadI64_set_other (kv : List (String × String)) (key key2 : String)
    (w : String) (hne : key2 ≠ key) :
    kvReadI64 (assocSet kv key w) key2 = kvReadI64 kv key2 := by
  unfold kvReadI64
  rw [assocGet_assocSet, if_neg hne]

/-- The `(next_ms, next_ctr)` computation of `next_hlc`. -/
def hlcNext (now m c : Int) : Int × Int :=
  if now > m then (now, 0) else (m, c + 1)

/-- Strict lexicographic order on `(ms, ctr)` pairs. -/
def pairLt (a b : Int × Int) : Prop := a.1 < b.1 ∨ (a.1 = b.1 ∧ a.2 < b.2)

theorem pairLt_trans {a b c : Int × Int} (h1 : pairLt a b) (h2 : pairLt b c) :
    pairLt a c := by
  unfold pairLt at *
  omega

theorem hlcSpecLt_of_pairLt (a b : Int × Int × String)
    (h : pairLt (a.1, a.2.1) (b.1, b.2.1)) : HlcSpecLt a b := by
  unfold pairLt at h
  unfold HlcSpecLt
  simp only at h
  rcases h with h | ⟨h1, h2⟩
  · exact Or.inl h
  · exact Or.inr ⟨h1, Or.inl h2⟩

theorem next_hlc_step {δ : Type} (now : Int) (org : String) (s : Store δ)
    (hm0 : 0 ≤ kvReadI64 s.sync_kv "hlc_last_ms")
    (hmM : kvReadI64 s.sync_kv "hlc_last_ms" ≤ i64Max)
    (hc0 : 0 ≤ kvReadI64 s.sync_kv "hlc_last_ctr")
    (hnow : now ≤ i64Max)
    (hcM : kvReadI64 s.sync_kv "hlc_last_ctr" + 1 ≤ i64Max) :
    parse_hlc (next_hlc now org s).1
        = ((hlcNext now (kvReadI64 s.sync_kv "hlc_last_ms")
              (kvReadI64 s.sync_kv "hlc_last_ctr")).1,
           (hlcNext now (kvReadI64 s.sync_kv "hlc_last_ms")
              (kvReadI64 s.sync_kv "hlc_last_ctr")).2, org)
    ∧ kvReadI64 (next_hlc now org s).2.sync_kv "hlc_last_ms"
        = (hlcNext now (kvReadI64 s.sync_kv "hlc_last_ms")
            (kvReadI64 s.sync_kv "hlc_last_ctr")).1
    ∧ kvReadI64 (next_hlc now org s).2.sync_kv "hlc_last_ctr"
        = (hlcNext now (kvReadI64 s.sync_kv "hlc_last_ms")
            (kvReadI64 s.sync_kv "hlc_last_ctr")).2 := by
  have hbound : 0 ≤ (hlcNext now (kvReadI64 s.sync_kv "hlc_last_ms")
        (kvReadI64 s.sync_kv "hlc_last_ctr")).1
      ∧ (hlcNext now (kvReadI64 s.sync_kv "hlc_last_ms")
          (kvReadI64 s.sync_kv "hlc_last_ctr")).1 ≤ i64Max
      ∧ 0 ≤ (hlcNext now (kvReadI64 s.sync_kv "hlc_last_ms")
          (kvReadI64 s.sync_kv "hlc_last_ctr")).2
      ∧ (hlcNext now (kvReadI64 s.sync_kv "hlc_last_ms")
          (kvReadI64 s.sync_kv "hlc_last_ctr")).2 ≤ i64Max := by
    unfold hlcNext
    by_cases hgt : now > kvReadI64 s.sync_kv "hlc_last_ms"
    · rw [if_pos hgt]
      exact ⟨by omega, hnow, le_refl 0, by omega⟩
    · rw [if_neg hgt]
      exact ⟨hm0, hmM, by omega, hcM⟩
  have htok : (next_hlc now org s).1
      = hlcToken (hlcNext now (kvReadI64 s.sync_kv "hlc_last_ms")
          (kvReadI64 s.sync_kv "hlc_last_ctr")).1
        (hlcNext now (kvReadI64 s.sync_kv "hlc_last_ms")
          (kvReadI64 s.sync_kv "hlc_last_ctr")).2 org := rfl
  have hkv : (next_hlc now org s).2.sync_kv
      = assocSet
          (assocSet s.sync_kv "hlc_last_ms"
            (intToString (hlcNext now (kvReadI64 s.sync_kv "hlc_last_ms")
              (kvReadI64 s.sync_kv "hlc_last_ctr")).1))
          "hlc_last_ctr"
          (intToString (hlcNext now (kvReadI64 s.sync_kv "hlc_last_ms")
            (kvReadI64 s.sync_kv "hlc_last_ctr")).2) := rfl
  refine ⟨?_, ?_, ?_⟩
  · rw [htok]
    exact parse_hlc_token _ _ org hbound.1 hbound.2.1 hbound.2.2.1 hbound.2.2.2
  · rw [hkv, kvReadI64_set_other _ _ _ _ (by decide),
      kvReadI64_set_same _ _ _ hbound.1 hbound.2.1]
  · rw [hkv, kvReadI64_set_same _ _ _ hbound.2.2.1 hbound.2.2.2]

theorem runHlc_mono {δ : Type} :
    ∀ (calls : List (Int × String)) (s : Store δ),
      (∀ p ∈ calls, p.1 ≤ i64Max) →
      0 ≤ kvReadI64 s.sync_kv "hlc_last_ms" →
      kvReadI64 s.sync_kv "hlc_last_ms" ≤ i64Max →
      0 ≤ kvReadI64 s.sync_kv "hlc_last_ctr" →
      kvReadI64 s.sync_kv "hlc_last_ctr" + (calls.length : Int) ≤ i64Max →
      ((runHlc calls s).1.map (fun t => ((parse_hlc t).1, (parse_hlc t).2.1))).Pairwise pairLt
      ∧ ∀ t ∈ (runHlc calls s).1,
          pairLt (kvReadI64 s.sync_kv "hlc_last_ms", kvReadI64 s.sync_kv "hlc_last_ctr")
            ((parse_hlc t).1, (parse_hlc t).2.1) := by
  intro calls
  induction calls with
  | nil =>
    intro s _ _ _ _ _
    exact ⟨by simp [runHlc], by simp [runHlc]⟩
  | cons cp rest ih =>
    intro s hin hm0 hmM hc0 hcM
    obtain ⟨now, org⟩ := cp
    have hnow : now ≤ i64Max := hin (now, org) (List.mem_cons_self _ _)
    have hlen : (0 : Int) ≤ (rest.length : Int) := by positivity
    have hcM1 : kvReadI64 s.sync_kv "hlc_last_ctr" + 1 ≤ i64Max := by
      simp only [List.length_cons] at hcM
      push_cast at hcM
      omega
    obtain ⟨hparse, hms, hctr⟩ := next_hlc_step now org s hm0 hmM hc0 hnow hcM1
    have hfirst : pairLt
        (kvReadI64 s.sync_kv "hlc_last_ms", kvReadI64 s.sync_kv "hlc_last_ctr")
        (hlcNext now (kvReadI64 s.sync_kv "hlc_last_ms")
          (kvReadI64 s.sync_kv "hlc_last_ctr")) := by
      unfold hlcNext pairLt
      by_cases hgt : now > kvReadI64 s.sync_kv "hlc_last_ms"
      · rw [if_pos hgt]; exact Or.inl hgt
      · rw [if_neg hgt]; exact Or.inr ⟨rfl, by omega⟩
    have hinv2 : kvReadI64 (next_hlc now org s).2.sync_kv "hlc_last_ctr"
        + (rest.length : Int) ≤ i64Max := by
      rw [hctr]
      unfold hlcNext
      simp only [List.length_cons] at hcM
      push_cast at hcM
      by_cases hgt : now > kvReadI64 s.sync_kv "hlc_last_ms"
      · rw [if_pos hgt]; simp only; omega
      · rw [if_neg hgt]; simp only; omega
    have hb0 : 0 ≤ kvReadI64 (next_hlc now org s).2.sync_kv "hlc_last_ms" := by
      rw [hms]
      unfold hlcNext
      by_cases hgt : now > kvReadI64 s.sync_kv "hlc_last_ms"
      · rw [if_pos hgt]; simp only; omega
      · rw [if_neg hgt]; simp only; omega
    have hbM : kvReadI64 (next_hlc now org s).2.sync_kv "hlc_last_ms" ≤ i64Max := by
      rw [hms]
      unfold hlcNext
      by_cases hgt : now > kvReadI64 s.sync_kv "hlc_last_ms"
      · rw [if_pos hgt]; simp only; omega
      · rw [if_neg hgt]; simp only; omega
    have hb2 : 0 ≤ kvReadI64 (next_hlc now org s).2.sync_kv "hlc_last_ctr" := by
      rw [hctr]
      unfold hlcNext
      by_cases hgt : now > kvReadI64 s.sync_kv "hlc_last_ms"
      · rw [if_pos hgt]
      · rw [if_neg hgt]; simp only; omega
    obtain ⟨ihpw, ihdom⟩ := ih (next_hlc now org s).2
      (fun p hp => hin p (List.mem_cons_of_mem _ hp)) hb0 hbM hb2 hinv2
    have hrun : (runHlc ((now, org) :: rest) s).1
        = (next_hlc now org s).1 :: (runHlc rest (next_hlc now org s).2).1 := rfl
    have hdom' : ∀ t ∈ (runHlc rest (next_hlc now org s).2).1,
        pairLt (hlcNext now (kvReadI64 s.sync_kv "hlc_last_ms")
            (kvReadI64 s.sync_kv "hlc_last_ctr"))
          ((parse_hlc t).1, (parse_hlc t).2.1) := by
      intro t ht
      have := ihdom t ht
      rwa [hms, hctr] at this
    constructor
    · rw [hrun]
      simp only [List.map_cons]
      refine List.Pairwise.cons ?_ ihpw
      intro b hb
      obtain ⟨t, ht, rfl⟩ := List.mem_map.mp hb
      have h1 : ((parse_hlc (next_hlc now org s).1).1,
          (parse_hlc (next_hlc now org s).1).2.1)
          = hlcNext now (kvReadI64 s.sync_kv "hlc_last_ms")
              (kvReadI64 s.sync_kv "hlc_last_ctr") := by
        rw [hparse]
      rw [h1]
      exact hdom' t ht
    · intro t ht
      rw [hrun] at ht
      rcases List.mem_cons.mp ht with ht | ht
      · subst ht
        rw [hparse]
        exact hfirst
      · exact pairLt_trans hfirst (hdom' t ht)

/-- C4: across any sequence of `next_hlc` calls on one engine instance —
arbitrary origins and arbitrary (possibly regressing) i64 wall-clock
readings, starting from a store with no persisted HLC state — the parsed
`(ms, ctr, origin)` triples of the returned tokens are strictly increasing
in lexicographic order, because the generator computes `(now, 0)` when
`now > last_ms` and `(last_ms, last_ctr + 1)` otherwise; concretely, with
the clock at 1000, 999, 1000, 1001 the calls `next("A")`, `next("A")`,
`next("B")`, `next("A")` return `"1000-0-A"`, `"1000-1-A"`, `"1000-2-B"`,
`"1001-0-A"`. -/
theorem next_hlc_strictly_monotone :
    (∀ (δ : Type) (calls : List (Int × String)) (s : Store δ),
        assocGet s.sync_kv "hlc_last_ms" = none →
        assocGet s.sync_kv "hlc_last_ctr" = none →
        (∀ p ∈ calls, p.1 ≤ i64Max) →
        (calls.length : Int) ≤ i64Max →
        ((runHlc calls s).1.map parse_hlc).Pairwise HlcSpecLt)
    ∧ (runHlc [(1000, "A"), (999, "A"), (1000, "B"), (1001, "A")] (initStore ())).1
        = ["1000-0-A", "1000-1-A", "1000-2-B", "1001-0-A"] := by
  constructor
  · intro δ calls s hmsnone hctrnone hin hlen
    have hm : kvReadI64 s.sync_kv "hlc_last_ms" = 0 := by
      unfold kvReadI64; rw [hmsnone]
    have hc : kvReadI64 s.sync_kv "hlc_last_ctr" = 0 := by
      unfold kvReadI64; rw [hctrnone]
    obtain ⟨hpw, -⟩ := runHlc_mono calls s hin (by rw [hm]) (by rw [hm]; decide)
      (by rw [hc]) (by rw [hc]; simpa using hlen)
    have hpw2 := List.pairwise_map.mp hpw
    refine List.pairwise_map.mpr (hpw2.imp ?_)
    intro a b hab
    exact hlcSpecLt_of_pairLt (parse_hlc a) (parse_hlc b) hab
  · decide

/-- Witness for C4: the initial-state and clock-range hypotheses are
satisfiable at the specification's scenario S1. -/
theorem next_hlc_strictly_monotone_witness :
    (assocGet (initStore ()).sync_kv "hlc_last_ms" = none
      ∧ assocGet (initStore ()).sync_kv "hlc_last_ctr" = none
      ∧ (∀ p ∈ [((1000 : Int), "A"), (999, "A"), (1000, "B"), (1001, "A")], p.1 ≤ i64Max)
      ∧ (([((1000 : Int), "A"), (999, "A"), (1000, "B"), (1001, "A")].length : Int) ≤ i64Max))
    ∧ ((runHlc [((1000 : Int), "A"), (999, "A"), (1000, "B"), (1001, "A")]
          (initStore ())).1.map parse_hlc).Pairwise HlcSpecLt :=
  ⟨⟨rfl, rfl, by decide, by decide⟩,
    next_hlc_strictly_monotone.1 Unit
      [((1000 : Int), "A"), (999, "A"), (1000, "B"), (1001, "A")] (initStore ())
      rfl rfl (by decide) (by decide)⟩

end Oplog

